import Mathlib

/-!
Verification development for KANADEV (KANADEV.py), a kana learning game.

The Python source is shallowly embedded: Python ints become `Int` (or `Nat`
where the program only holds non-negative values), Python floats become `Rat`
(the decimal constants of the source, such as 0.01, are exact decimals here),
Python dicts become association lists `List (String × _)` in insertion order,
and strings compared character by character become lists of Unicode code
points `List Nat`.  The pygame random source is passed in explicitly: each
`random.random()` draw is a rational parameter `r` with `0 ≤ r < 1`, and each
`random.choice` draw is an index parameter, so every embedded function is a
deterministic function of its inputs, mirroring the determinism of Python's
seeded `random` module.
-/

namespace Kanadev

/-- Embeds `choice_weight` (KANADEV.py line 156): `(6 - mastery) ** 2 + 0.01`.
Python int/float arithmetic is modelled over the rationals. -/
def choice_weight (mastery : ℤ) : ℚ :=
  ((6 - mastery : ℤ) : ℚ) ^ 2 + 1 / 100

/-- Python `dict.get(k, 1)` on a mastery dict: association-list lookup with
default value 1. -/
def getMastery (prog : List (String × ℤ)) (k : String) : ℤ :=
  (prog.lookup k).getD 1

/-- Python `d[kana] = cur` on a dict embedded as an association list in
insertion order: overwrite the first binding of the key, or append a new
binding at the end. -/
def dictSet (m : List (String × ℤ)) (key : String) (v : ℤ) : List (String × ℤ) :=
  match m with
  | [] => [(key, v)]
  | (k, w) :: t => if k = key then (key, v) :: t else (k, w) :: dictSet t key v

/-- Embeds `Scene._bump_mastery` (KANADEV.py lines 306-310) acting on the
mastery dict of the active script:
`cur = int(prog.get(kana, 1)); cur = max(1, min(10, cur + delta)); prog[kana] = cur`. -/
def bump_mastery (prog : List (String × ℤ)) (kana : String) (delta : ℤ) :
    List (String × ℤ) :=
  dictSet prog kana (max 1 (min 10 (getMastery prog kana + delta)))

/-- The weighted-item list built by both selectors (KANADEV.py lines 376-379
and 632): each candidate paired with `choice_weight(int(prog.get(k, 1)))`. -/
def pickItems (prog : List (String × ℤ)) (kanaList : List String) :
    List (String × ℚ) :=
  kanaList.map (fun k => (k, choice_weight (getMastery prog k)))

/-- The cumulative-weight scan shared by both selectors (KANADEV.py lines
382-386 and 635-639): `acc += w; if r <= acc: return k`, with `none` when the
loop falls through. -/
def pickLoop : List (String × ℚ) → ℚ → ℚ → Option String
  | [], _, _ => none
  | (k, w) :: rest, r, acc =>
      if r ≤ acc + w then some k else pickLoop rest r (acc + w)

/-- Embeds `Quiz.weighted_pick` (KANADEV.py lines 371-387).  The random source
is explicit: `r` is the `random.random()` draw and `choiceIdx` the index drawn
by `random.choice` on the full table in the empty-candidate fallback
(line 375); given the same draws the result is the same, which is the
determinism the spec asks of a seeded generator.  The `getLastD` default is
unreachable: it models `items[-1][0]`, evaluated only when `items` is
non-empty. -/
def weighted_pick (table : List String) (prog : List (String × ℤ))
    (kanaList : List String) (r : ℚ) (choiceIdx : ℕ) : String :=
  if kanaList.isEmpty then table.getD choiceIdx ""
  else
    let items := pickItems prog kanaList
    let total := (items.map Prod.snd).sum
    match pickLoop items (r * total) 0 with
    | some k => k
    | none => (items.getLastD ("", 0)).1

/-- Embeds `TypeMode._pick` (KANADEV.py lines 630-640):
`return items[-1][0] if items else None` becomes the explicit `none` on an
empty item list. -/
def type_pick (prog : List (String × ℤ)) (kanaList : List String) (r : ℚ) :
    Option String :=
  let items := pickItems prog kanaList
  let total := (items.map Prod.snd).sum
  match pickLoop items (r * total) 0 with
  | some k => some k
  | none => if items.isEmpty then none else some ((items.getLastD ("", 0)).1)

/-- Python `str` values submitted in the typing scene, as lists of Unicode
code points.  `isWsN` holds of the ASCII whitespace code points recognised by
Python's `str.strip`. -/
def isWsN (n : ℕ) : Bool :=
  n == 32 || n == 9 || n == 10 || n == 11 || n == 12 || n == 13

/-- Python `str.lower` on one code point, for the ASCII range the romaji
comparison lives in: uppercase letters map 32 code points up, everything else
is unchanged. -/
def pyLowerN (n : ℕ) : ℕ :=
  if 65 ≤ n ∧ n ≤ 90 then n + 32 else n

/-- Python `str.lower` on a string. -/
def lowerL (l : List ℕ) : List ℕ :=
  l.map pyLowerN

/-- Python `str.replace(" ", "")`: remove every space (code point 32). -/
def noSpaces (l : List ℕ) : List ℕ :=
  l.filter (fun n => !(n == 32))

/-- Python `str.strip()`: drop leading and trailing whitespace. -/
def stripWs (l : List ℕ) : List ℕ :=
  ((l.dropWhile isWsN).reverse.dropWhile isWsN).reverse

/-- The guess normalisation of `TypeMode.handle` (KANADEV.py line 696):
`self.input.text.strip().lower().replace(" ", "")`. -/
def pyNormalize (l : List ℕ) : List ℕ :=
  noSpaces (lowerL (stripWs l))

/-- A string up to letter case and spaces: its lowercased, space-free core.
Two inputs differ only in letter case or in spaces exactly when their
skeletons agree. -/
def skeleton (l : List ℕ) : List ℕ :=
  noSpaces (lowerL l)

/-- The kana-branch comparison of `TypeMode.handle` (KANADEV.py lines
717-720): the normalised guess against `self.app.table[self.kana]`. -/
def type_kana_judge (expected input : List ℕ) : Bool :=
  pyNormalize input == expected

/-- The word-branch comparison of `TypeMode.handle` (KANADEV.py lines
697-703): the normalised guess against `self.word_romaji.replace(" ", "")`. -/
def word_judge (wordRomaji input : List ℕ) : Bool :=
  pyNormalize input == noSpaces wordRomaji

/-- The two writing systems. -/
inductive Script where
  | hiragana
  | katakana
deriving DecidableEq

/-- The scoring state shared by the quiz and typing scenes: the session
streak and score (`self.streak`, `self.score`) and the persisted
`best_score` map, one entry per writing system.  All are non-negative in
every state the program can hold. -/
structure ScoreState where
  streak : ℕ
  score : ℕ
  best : Script → ℕ

/-- The best-score update both scenes perform on a correct answer
(KANADEV.py lines 410-411 and 723-724):
`if self.score > best[script]: best[script] = self.score`. -/
def updateBest (best : Script → ℕ) (script : Script) (score : ℕ) : Script → ℕ :=
  fun s =>
    if s = script then (if score > best script then score else best script)
    else best s

/-- The scoring fragment of `Quiz.choose` (KANADEV.py lines 403-418):
`correct = idx == self.correct_idx`, then streak/score/best updates.  The
mastery bump and the persistence flush touch no scoring state and are
modelled separately. -/
def chooseStep (script : Script) (idx correctIdx : ℕ) (st : ScoreState) :
    ScoreState :=
  if idx = correctIdx then
    { streak := st.streak + 1, score := st.streak + 1,
      best := updateBest st.best script (st.streak + 1) }
  else
    { streak := 0, score := 0, best := st.best }

/-- The scoring fragment of the kana branch of `TypeMode.handle` (KANADEV.py
lines 717-733): the normalised input is compared to the expected romaji, then
the same streak/score/best updates as in the quiz scene. -/
def typeKanaStep (script : Script) (input expected : List ℕ) (st : ScoreState) :
    ScoreState :=
  if pyNormalize input = expected then
    { streak := st.streak + 1, score := st.streak + 1,
      best := updateBest st.best script (st.streak + 1) }
  else
    { streak := 0, score := 0, best := st.best }

/-- One answer event: a click on quiz option `idx` with correct option
`correctIdx`, or a typed submission in the typing scene's kana mode. -/
inductive AnswerEv where
  | quiz (script : Script) (idx correctIdx : ℕ)
  | typeKana (script : Script) (input expected : List ℕ)

/-- The active writing system of an answer event. -/
def AnswerEv.script : AnswerEv → Script
  | .quiz s _ _ => s
  | .typeKana s _ _ => s

/-- Apply one answer event to the scoring state. -/
def applyEv : AnswerEv → ScoreState → ScoreState
  | .quiz s i j, st => chooseStep s i j st
  | .typeKana s g e, st => typeKanaStep s g e st

/-- Apply a sequence of answer events in order. -/
def runEvents (evs : List AnswerEv) (st : ScoreState) : ScoreState :=
  evs.foldl (fun st ev => applyEv ev st) st

/-- The scoring fragment of the word branch of `TypeMode.handle` (KANADEV.py
lines 697-716): when no word is available only feedback is shown; otherwise
the normalised input is compared to `word_romaji.replace(" ", "")` and the
streak/score are updated.  The branch contains no best-score access. -/
def wordSubmit (hasWord : Bool) (input wordRomaji : List ℕ) (st : ScoreState) :
    ScoreState :=
  if !hasWord then st
  else if pyNormalize input = noSpaces wordRomaji then
    { streak := st.streak + 1, score := st.streak + 1, best := st.best }
  else
    { streak := 0, score := 0, best := st.best }

/-- A JSON number as stored in the progress file: Python distinguishes ints
from floats (`isinstance(v, float)`), so the embedding does too. -/
inductive JNum where
  | jint : ℤ → JNum
  | jfloat : ℚ → JNum
deriving DecidableEq

/-- A parsed progress file: the two per-script mastery objects and the
`best_score` object, each possibly missing.  A file that is absent,
unreadable or unparseable (or whose processing raises) is modelled as `none`
at the call site of `load_progress`. -/
structure SavedFile where
  hiragana : Option (List (String × JNum))
  katakana : Option (List (String × JNum))
  best_score : Option (List (String × ℤ))
deriving DecidableEq

/-- The in-memory progress state: per-script mastery dicts and the
`best_score` dict, all as association lists in insertion order. -/
structure Progress where
  hiragana : List (String × ℤ)
  katakana : List (String × ℤ)
  best_score : List (String × ℤ)
deriving DecidableEq

/-- Python 3 `round` to an integer: round half to even. -/
def pyRound (q : ℚ) : ℤ :=
  if q - ⌊q⌋ < 1 / 2 then ⌊q⌋
  else if 1 / 2 < q - ⌊q⌋ then ⌊q⌋ + 1
  else if ⌊q⌋ % 2 = 0 then ⌊q⌋ else ⌊q⌋ + 1

/-- Python `int()` on a float: truncate toward zero. -/
def pyInt (q : ℚ) : ℤ :=
  if 0 ≤ q then ⌊q⌋ else ⌈q⌉

/-- The per-value mastery conversion of `load_progress` (KANADEV.py line
138): `max(1, min(10, int(round(float(v) * 10)) if isinstance(v, float) and
v <= 1 else int(v)))`. -/
def normalizeMastery (v : JNum) : ℤ :=
  match v with
  | .jint n => max 1 (min 10 n)
  | .jfloat q => max 1 (min 10 (if q ≤ 1 then pyRound (q * 10) else pyInt q))

/-- Python `dict.setdefault(key, v)`: keep an existing binding, else append
the default at the end. -/
def setdefaultKey (m : List (String × ℤ)) (key : String) (v : ℤ) :
    List (String × ℤ) :=
  if (m.lookup key).isSome then m else m ++ [(key, v)]

/-- Embeds `save_progress` (KANADEV.py lines 149-154): `json.dump` writes the
progress dict verbatim (ints stay ints), producing a file with all three
keys present.  Write failures are swallowed and change nothing, so only the
written content is modelled. -/
def save_progress (p : Progress) : SavedFile :=
  { hiragana := some (p.hiragana.map (fun kv => (kv.1, JNum.jint kv.2)))
  , katakana := some (p.katakana.map (fun kv => (kv.1, JNum.jint kv.2)))
  , best_score := some p.best_score }

/-- Embeds `load_progress` (KANADEV.py lines 128-147).  `none` stands for an
absent, unreadable or unparseable file (any exception lands in the bare
`except` and yields the default state, line 147).  On a parsed file the two
script keys are defaulted to empty dicts, every mastery value is converted by
`normalizeMastery`, and `best_score` is defaulted and completed per script. -/
def load_progress (f : Option SavedFile) : Progress :=
  match f with
  | none =>
      { hiragana := [], katakana := []
      , best_score := [("hiragana", 0), ("katakana", 0)] }
  | some d =>
      { hiragana := (d.hiragana.getD []).map (fun kv => (kv.1, normalizeMastery kv.2))
      , katakana := (d.katakana.getD []).map (fun kv => (kv.1, normalizeMastery kv.2))
      , best_score :=
          setdefaultKey
            (setdefaultKey (d.best_score.getD [("hiragana", 0), ("katakana", 0)])
              "hiragana" 0)
            "katakana" 0 }

theorem lookup_dictSet (m : List (String × ℤ)) (key : String) (v : ℤ) :
    (dictSet m key v).lookup key = some v := by
  induction m with
  | nil => simp [dictSet]
  | cons hd t ih =>
      obtain ⟨k, w⟩ := hd
      by_cases h : k = key
      · simp [dictSet, h]
      · have hk : (key == k) = false := beq_eq_false_iff_ne.mpr (Ne.symm h)
        simp [dictSet, h, List.lookup, hk, ih]

end Kanadev

/-- C1: the spec claims `choice_weight` is strictly decreasing on mastery 1..5,
flat/minimal for mastery ≥ 5, and always positive.  The code's weight
`(6 - m)^2 + 0.01` is indeed strictly decreasing on 1..5 and positive, but it
is not flat/minimal for m ≥ 5: it reaches its minimum 0.01 at m = 6 and then
grows again to 16.01 at m = 10, exceeding the m = 5 value 1.01.  This
contradicts the source's own comments ("items you miss appear more often",
"higher mastery = lower weight"), so the code is the slip.  This theorem
evaluates the code at the failing inputs. -/
theorem choice_weight_not_minimal_above_five :
    Kanadev.choice_weight 5 = 101 / 100 ∧
    Kanadev.choice_weight 6 = 1 / 100 ∧
    Kanadev.choice_weight 10 = 1601 / 100 ∧
    Kanadev.choice_weight 6 < Kanadev.choice_weight 5 ∧
    Kanadev.choice_weight 5 < Kanadev.choice_weight 10 ∧
    Kanadev.choice_weight 1 > Kanadev.choice_weight 2 ∧
    Kanadev.choice_weight 2 > Kanadev.choice_weight 3 ∧
    Kanadev.choice_weight 3 > Kanadev.choice_weight 4 ∧
    Kanadev.choice_weight 4 > Kanadev.choice_weight 5 := by
  refine ⟨?_, ?_, ?_, ?_, ?_, ?_, ?_, ?_, ?_⟩ <;> norm_num [Kanadev.choice_weight]

/-- C3: a correct answer sets the answered character's mastery to
`clamp(old + 1, 1, 10)` and an incorrect answer sets it to
`clamp(old - 1, 1, 10)` (with `old` read from the dict, defaulting to 1), and
the clamped results never exceed 10 respectively never fall below 1 — in fact
for every starting value, which subsumes starting values in [1, 10]. -/
theorem bump_mastery_clamps (prog : List (String × ℤ)) (kana : String) (v : ℤ) :
    (Kanadev.bump_mastery prog kana 1).lookup kana =
      some (max 1 (min 10 (Kanadev.getMastery prog kana + 1))) ∧
    (Kanadev.bump_mastery prog kana (-1)).lookup kana =
      some (max 1 (min 10 (Kanadev.getMastery prog kana - 1))) ∧
    max 1 (min 10 (v + 1)) ≤ 10 ∧
    1 ≤ max 1 (min 10 (v - 1)) ∧
    1 ≤ max 1 (min 10 (v + 1)) ∧
    max 1 (min 10 (v - 1)) ≤ 10 := by
  refine ⟨?_, ?_, ?_, ?_, ?_, ?_⟩
  · exact Kanadev.lookup_dictSet _ _ _
  · have h := Kanadev.lookup_dictSet prog kana
      (max 1 (min 10 (Kanadev.getMastery prog kana + (-1))))
    simpa [Kanadev.bump_mastery, sub_eq_add_neg] using h
  · omega
  · omega
  · omega
  · omega

/-- C2 counterexample: the claimed weights are wrong for the code.  For the
candidate set with mastery(A) = 1 and mastery(B) = 10 the code computes
weight(A) = 25.01 (not 26.01) and weight(B) = 16.01 (not 1.01). -/
theorem choice_weight_claimed_values_false :
    ¬ Kanadev.choice_weight 1 = 2601 / 100 ∧
    ¬ Kanadev.choice_weight 10 = 101 / 100 := by
  constructor <;> norm_num [Kanadev.choice_weight]

/-- C2 amended: for candidates A (mastery 1) and B (mastery 10),
`choice_weight` yields weight(A) = 25.01 and weight(B) = 16.01, the total is
41.02, and a single `weighted_pick` draw with uniform value r in [0,1)
returns A exactly when r * 41.02 ≤ 25.01 and B otherwise; hence A is drawn
with probability 25.01/41.02 and B with probability 16.01/41.02, a ratio of
2501/1601 ≈ 1.56 (not 25.6). -/
theorem weighted_pick_AB_odds (r : ℚ) (h0 : 0 ≤ r) (h1 : r < 1) :
    Kanadev.choice_weight 1 = 2501 / 100 ∧
    Kanadev.choice_weight 10 = 1601 / 100 ∧
    (Kanadev.weighted_pick ["A", "B"] [("A", 1), ("B", 10)] ["A", "B"] r 0 = "A" ↔
      r * (4102 / 100) ≤ 2501 / 100) ∧
    (Kanadev.weighted_pick ["A", "B"] [("A", 1), ("B", 10)] ["A", "B"] r 0 = "B" ↔
      ¬ r * (4102 / 100) ≤ 2501 / 100) ∧
    (156 / 100 : ℚ) < 2501 / 1601 ∧ (2501 / 1601 : ℚ) < 157 / 100 := by
  have hgA : Kanadev.getMastery [("A", (1 : ℤ)), ("B", 10)] "A" = 1 := rfl
  have hgB : Kanadev.getMastery [("A", (1 : ℤ)), ("B", 10)] "B" = 10 := rfl
  have hitems : Kanadev.pickItems [("A", (1 : ℤ)), ("B", 10)] ["A", "B"] =
      [("A", (2501 : ℚ) / 100), ("B", 1601 / 100)] := by
    simp only [Kanadev.pickItems, List.map, hgA, hgB]
    norm_num [Kanadev.choice_weight]
  have hloop : ∀ x : ℚ,
      Kanadev.pickLoop [("A", (2501 : ℚ) / 100), ("B", 1601 / 100)] x 0 =
        if x ≤ 2501 / 100 then some "A"
        else if x ≤ 4102 / 100 then some "B" else none := by
    intro x
    simp only [Kanadev.pickLoop]
    norm_num
  have hpick : Kanadev.weighted_pick ["A", "B"] [("A", 1), ("B", 10)] ["A", "B"] r 0 =
      if r * (4102 / 100) ≤ 2501 / 100 then "A" else "B" := by
    have hsum : (([("A", (2501 : ℚ) / 100), ("B", 1601 / 100)].map Prod.snd).sum : ℚ) =
        4102 / 100 := by norm_num
    simp only [Kanadev.weighted_pick, hitems, hsum, hloop]
    by_cases hc : r * (4102 / 100 : ℚ) ≤ 2501 / 100
    · simp [hc]
    · have h2 : r * (4102 / 100 : ℚ) ≤ 4102 / 100 := by nlinarith
      simp [hc, h2]
  refine ⟨by norm_num [Kanadev.choice_weight], by norm_num [Kanadev.choice_weight],
    ?_, ?_, by norm_num, by norm_num⟩
  · rw [hpick]
    by_cases hc : r * (4102 / 100 : ℚ) ≤ 2501 / 100 <;> simp [hc]
  · rw [hpick]
    by_cases hc : r * (4102 / 100 : ℚ) ≤ 2501 / 100 <;> simp [hc]

/-- C2 witness: the amended theorem instantiated at the concrete draw
r = 1/2, which selects A. -/
theorem weighted_pick_AB_odds_witness :
    (0 : ℚ) ≤ 1 / 2 ∧ (1 / 2 : ℚ) < 1 ∧
    (Kanadev.choice_weight 1 = 2501 / 100 ∧
     Kanadev.choice_weight 10 = 1601 / 100 ∧
     (Kanadev.weighted_pick ["A", "B"] [("A", 1), ("B", 10)] ["A", "B"] (1 / 2) 0 = "A" ↔
       (1 / 2 : ℚ) * (4102 / 100) ≤ 2501 / 100) ∧
     (Kanadev.weighted_pick ["A", "B"] [("A", 1), ("B", 10)] ["A", "B"] (1 / 2) 0 = "B" ↔
       ¬ (1 / 2 : ℚ) * (4102 / 100) ≤ 2501 / 100) ∧
     (156 / 100 : ℚ) < 2501 / 1601 ∧ (2501 / 1601 : ℚ) < 157 / 100) :=
  ⟨by norm_num, by norm_num,
    weighted_pick_AB_odds (1 / 2) (by norm_num) (by norm_num)⟩

/-- C4: on an empty candidate set, `Quiz.weighted_pick` falls back to an
unweighted `random.choice` over the full kana table (it returns the table
entry at the drawn index) and `TypeMode._pick` fails explicitly by returning
`None`; both are deterministic functions of the explicit random draws. -/
theorem empty_candidates_fallback (table : List String)
    (prog : List (String × ℤ)) (r : ℚ) (i : ℕ) (h : i < table.length) :
    Kanadev.weighted_pick table prog [] r i = table[i] ∧
    Kanadev.type_pick prog [] r = none := by
  constructor
  · simp [Kanadev.weighted_pick, List.getD_eq_getElem?_getD, List.getElem?_eq_getElem h]
  · rfl

/-- C4 witness: the fallback theorem instantiated on a one-entry table with
index draw 0. -/
theorem empty_candidates_fallback_witness :
    0 < (["あ"] : List String).length ∧
    (Kanadev.weighted_pick ["あ"] [] [] (1 / 2) 0 = "あ" ∧
     Kanadev.type_pick [] [] (1 / 2) = none) :=
  ⟨by decide, empty_candidates_fallback ["あ"] [] (1 / 2) 0 (by decide)⟩

theorem best_le_updateBest (best : Kanadev.Script → ℕ) (sc : Kanadev.Script)
    (v : ℕ) (s : Kanadev.Script) : best s ≤ Kanadev.updateBest best sc v s := by
  unfold Kanadev.updateBest
  split_ifs with h1 h2
  · subst h1; omega
  · subst h1; omega
  · omega

theorem updateBest_self (best : Kanadev.Script → ℕ) (sc : Kanadev.Script)
    (v : ℕ) : Kanadev.updateBest best sc v sc = max (best sc) v := by
  unfold Kanadev.updateBest
  rw [if_pos rfl, Nat.max_def]
  split_ifs <;> omega

theorem updateBest_other (best : Kanadev.Script → ℕ) (sc : Kanadev.Script)
    (v : ℕ) (s' : Kanadev.Script) (h : s' ≠ sc) :
    Kanadev.updateBest best sc v s' = best s' := by
  unfold Kanadev.updateBest
  rw [if_neg h]

theorem best_le_applyEv (ev : Kanadev.AnswerEv) (st : Kanadev.ScoreState)
    (s : Kanadev.Script) : st.best s ≤ (Kanadev.applyEv ev st).best s := by
  cases ev with
  | quiz sc i j =>
      by_cases h : i = j
      · simpa [Kanadev.applyEv, Kanadev.chooseStep, h] using
          best_le_updateBest st.best sc (st.streak + 1) s
      · simp [Kanadev.applyEv, Kanadev.chooseStep, h]
  | typeKana sc g e =>
      by_cases h : Kanadev.pyNormalize g = e
      · simpa [Kanadev.applyEv, Kanadev.typeKanaStep, h] using
          best_le_updateBest st.best sc (st.streak + 1) s
      · simp [Kanadev.applyEv, Kanadev.typeKanaStep, h]

theorem best_le_runEvents (evs : List Kanadev.AnswerEv) (st : Kanadev.ScoreState)
    (s : Kanadev.Script) : st.best s ≤ (Kanadev.runEvents evs st).best s := by
  induction evs generalizing st with
  | nil => exact le_refl _
  | cons e t ih =>
      exact le_trans (best_le_applyEv e st s) (ih (Kanadev.applyEv e st))

/-- C5: across any sequence of quiz/typing answer events the stored best
score of every writing system never decreases; a single answer event leaves
the active system's best at `max` of the old best and the new streak, so it
is changed exactly when the new streak strictly exceeds it; and the event
leaves the other writing system's best untouched. -/
theorem best_score_monotone (evs : List Kanadev.AnswerEv) (st : Kanadev.ScoreState)
    (s : Kanadev.Script) (ev : Kanadev.AnswerEv) (s' : Kanadev.Script)
    (h : s' ≠ ev.script) :
    st.best s ≤ (Kanadev.runEvents evs st).best s ∧
    (Kanadev.applyEv ev st).best ev.script =
      max (st.best ev.script) ((Kanadev.applyEv ev st).streak) ∧
    ((Kanadev.applyEv ev st).best ev.script ≠ st.best ev.script ↔
      st.best ev.script < (Kanadev.applyEv ev st).streak) ∧
    (Kanadev.applyEv ev st).best s' = st.best s' := by
  refine ⟨best_le_runEvents evs st s, ?_, ?_, ?_⟩
  · cases ev with
    | quiz sc i j =>
        by_cases hc : i = j
        · simp [Kanadev.applyEv, Kanadev.chooseStep, hc, Kanadev.AnswerEv.script,
            updateBest_self]
        · simp [Kanadev.applyEv, Kanadev.chooseStep, hc, Kanadev.AnswerEv.script]
    | typeKana sc g e =>
        by_cases hc : Kanadev.pyNormalize g = e
        · simp [Kanadev.applyEv, Kanadev.typeKanaStep, hc, Kanadev.AnswerEv.script,
            updateBest_self]
        · simp [Kanadev.applyEv, Kanadev.typeKanaStep, hc, Kanadev.AnswerEv.script]
  · cases ev with
    | quiz sc i j =>
        by_cases hc : i = j
        · simp [Kanadev.applyEv, Kanadev.chooseStep, hc, Kanadev.AnswerEv.script,
            updateBest_self]
        · simp [Kanadev.applyEv, Kanadev.chooseStep, hc, Kanadev.AnswerEv.script]
    | typeKana sc g e =>
        by_cases hc : Kanadev.pyNormalize g = e
        · simp [Kanadev.applyEv, Kanadev.typeKanaStep, hc, Kanadev.AnswerEv.script,
            updateBest_self]
        · simp [Kanadev.applyEv, Kanadev.typeKanaStep, hc, Kanadev.AnswerEv.script]
  · cases ev with
    | quiz sc i j =>
        by_cases hc : i = j
        · simp only [Kanadev.AnswerEv.script] at h
          simp [Kanadev.applyEv, Kanadev.chooseStep, hc, updateBest_other _ _ _ _ h]
        · simp [Kanadev.applyEv, Kanadev.chooseStep, hc]
    | typeKana sc g e =>
        by_cases hc : Kanadev.pyNormalize g = e
        · simp only [Kanadev.AnswerEv.script] at h
          simp [Kanadev.applyEv, Kanadev.typeKanaStep, hc, updateBest_other _ _ _ _ h]
        · simp [Kanadev.applyEv, Kanadev.typeKanaStep, hc]

/-- C5 witness: the monotonicity/update theorem instantiated on a concrete
correct quiz answer from the zero state. -/
theorem best_score_monotone_witness :
    Kanadev.Script.katakana ≠ (Kanadev.AnswerEv.quiz Kanadev.Script.hiragana 0 0).script ∧
    ((⟨0, 0, fun _ => 0⟩ : Kanadev.ScoreState).best Kanadev.Script.hiragana ≤
      (Kanadev.runEvents [Kanadev.AnswerEv.quiz Kanadev.Script.hiragana 0 0]
        ⟨0, 0, fun _ => 0⟩).best Kanadev.Script.hiragana ∧
    (Kanadev.applyEv (Kanadev.AnswerEv.quiz Kanadev.Script.hiragana 0 0)
        ⟨0, 0, fun _ => 0⟩).best (Kanadev.AnswerEv.quiz Kanadev.Script.hiragana 0 0).script =
      max ((⟨0, 0, fun _ => 0⟩ : Kanadev.ScoreState).best
          (Kanadev.AnswerEv.quiz Kanadev.Script.hiragana 0 0).script)
        ((Kanadev.applyEv (Kanadev.AnswerEv.quiz Kanadev.Script.hiragana 0 0)
          ⟨0, 0, fun _ => 0⟩).streak) ∧
    ((Kanadev.applyEv (Kanadev.AnswerEv.quiz Kanadev.Script.hiragana 0 0)
        ⟨0, 0, fun _ => 0⟩).best (Kanadev.AnswerEv.quiz Kanadev.Script.hiragana 0 0).script ≠
      (⟨0, 0, fun _ => 0⟩ : Kanadev.ScoreState).best
        (Kanadev.AnswerEv.quiz Kanadev.Script.hiragana 0 0).script ↔
      (⟨0, 0, fun _ => 0⟩ : Kanadev.ScoreState).best
          (Kanadev.AnswerEv.quiz Kanadev.Script.hiragana 0 0).script <
        (Kanadev.applyEv (Kanadev.AnswerEv.quiz Kanadev.Script.hiragana 0 0)
          ⟨0, 0, fun _ => 0⟩).streak) ∧
    (Kanadev.applyEv (Kanadev.AnswerEv.quiz Kanadev.Script.hiragana 0 0)
        ⟨0, 0, fun _ => 0⟩).best Kanadev.Script.katakana =
      (⟨0, 0, fun _ => 0⟩ : Kanadev.ScoreState).best Kanadev.Script.katakana) :=
  ⟨by decide,
    best_score_monotone [Kanadev.AnswerEv.quiz Kanadev.Script.hiragana 0 0]
      ⟨0, 0, fun _ => 0⟩ Kanadev.Script.hiragana
      (Kanadev.AnswerEv.quiz Kanadev.Script.hiragana 0 0)
      Kanadev.Script.katakana (by decide)⟩

/-- C7: submitting in typed word mode never touches the stored best-score
map (for any writing system, word present or not), the displayed score
equals the streak, and the streak follows the same rule as the quiz scene:
it increments on a correct comparison and resets to zero otherwise — stated
by equating it with the quiz step's streak under a matching correctness
condition. -/
theorem word_mode_scoring (input wr : List ℕ) (st : Kanadev.ScoreState)
    (sc : Kanadev.Script) (i j : ℕ)
    (hc : i = j ↔ Kanadev.pyNormalize input = Kanadev.noSpaces wr) :
    (∀ hw : Bool, (Kanadev.wordSubmit hw input wr st).best = st.best) ∧
    (Kanadev.wordSubmit true input wr st).score =
      (Kanadev.wordSubmit true input wr st).streak ∧
    (Kanadev.wordSubmit true input wr st).streak =
      (if Kanadev.pyNormalize input = Kanadev.noSpaces wr then st.streak + 1 else 0) ∧
    (Kanadev.wordSubmit true input wr st).streak =
      (Kanadev.applyEv (Kanadev.AnswerEv.quiz sc i j) st).streak := by
  by_cases h : Kanadev.pyNormalize input = Kanadev.noSpaces wr
  · have hij : i = j := hc.mpr h
    refine ⟨?_, ?_, ?_, ?_⟩
    · intro hw
      cases hw <;> simp [Kanadev.wordSubmit, h]
    · simp [Kanadev.wordSubmit, h]
    · simp [Kanadev.wordSubmit, h]
    · simp [Kanadev.wordSubmit, Kanadev.applyEv, Kanadev.chooseStep, h, hij]
  · have hij : ¬ i = j := fun hh => h (hc.mp hh)
    refine ⟨?_, ?_, ?_, ?_⟩
    · intro hw
      cases hw <;> simp [Kanadev.wordSubmit, h]
    · simp [Kanadev.wordSubmit, h]
    · simp [Kanadev.wordSubmit, h]
    · simp [Kanadev.wordSubmit, Kanadev.applyEv, Kanadev.chooseStep, h, hij]

/-- C7 witness: the word-mode theorem instantiated on a correct submission
of "ka" (code points 107, 97) from the zero state. -/
theorem word_mode_scoring_witness :
    (0 = 0 ↔ Kanadev.pyNormalize [107, 97] = Kanadev.noSpaces [107, 97]) ∧
    ((∀ hw : Bool,
        (Kanadev.wordSubmit hw [107, 97] [107, 97]
          ⟨0, 0, fun _ => 0⟩).best = (⟨0, 0, fun _ => 0⟩ : Kanadev.ScoreState).best) ∧
     (Kanadev.wordSubmit true [107, 97] [107, 97] ⟨0, 0, fun _ => 0⟩).score =
       (Kanadev.wordSubmit true [107, 97] [107, 97] ⟨0, 0, fun _ => 0⟩).streak ∧
     (Kanadev.wordSubmit true [107, 97] [107, 97] ⟨0, 0, fun _ => 0⟩).streak =
       (if Kanadev.pyNormalize [107, 97] = Kanadev.noSpaces [107, 97]
        then (⟨0, 0, fun _ => 0⟩ : Kanadev.ScoreState).streak + 1 else 0) ∧
     (Kanadev.wordSubmit true [107, 97] [107, 97] ⟨0, 0, fun _ => 0⟩).streak =
       (Kanadev.applyEv (Kanadev.AnswerEv.quiz Kanadev.Script.hiragana 0 0)
         ⟨0, 0, fun _ => 0⟩).streak) :=
  ⟨by decide,
    word_mode_scoring [107, 97] [107, 97] ⟨0, 0, fun _ => 0⟩
      Kanadev.Script.hiragana 0 0 (by decide)⟩

theorem lookup_append_left (m l : List (String × ℤ)) (key : String) (x : ℤ)
    (h : m.lookup key = some x) : (m ++ l).lookup key = some x := by
  induction m with
  | nil => simp [List.lookup] at h
  | cons a t ih =>
      obtain ⟨k, v⟩ := a
      by_cases hk : (key == k) = true
      · simpa [List.lookup, hk] using h
      · have hk' : (key == k) = false := by simpa using hk
        simp only [List.cons_append, List.lookup, hk'] at h ⊢
        exact ih h

theorem lookup_append_right (m l : List (String × ℤ)) (key : String)
    (h : m.lookup key = none) : (m ++ l).lookup key = l.lookup key := by
  induction m with
  | nil => rfl
  | cons a t ih =>
      obtain ⟨k, v⟩ := a
      by_cases hk : (key == k) = true
      · simp [List.lookup, hk] at h
      · have hk' : (key == k) = false := by simpa using hk
        simp only [List.cons_append, List.lookup, hk'] at h ⊢
        exact ih h

theorem setdefaultKey_of_isSome (m : List (String × ℤ)) (key : String) (v : ℤ)
    (h : (m.lookup key).isSome) : Kanadev.setdefaultKey m key v = m := by
  simp [Kanadev.setdefaultKey, h]

theorem lookup_setdefaultKey_self (m : List (String × ℤ)) (key : String)
    (v : ℤ) : ((Kanadev.setdefaultKey m key v).lookup key).isSome := by
  by_cases h : (m.lookup key).isSome
  · simpa [Kanadev.setdefaultKey, h] using h
  · have hnone : m.lookup key = none := by
      cases hl : m.lookup key
      · rfl
      · simp [hl] at h
    have heq : Kanadev.setdefaultKey m key v = m ++ [(key, v)] := by
      simp [Kanadev.setdefaultKey, hnone]
    have : (Kanadev.setdefaultKey m key v).lookup key = some v := by
      rw [heq, lookup_append_right m _ key hnone]
      simp [List.lookup]
    simp [this]

theorem lookup_setdefaultKey_preserve (m : List (String × ℤ))
    (key other : String) (v : ℤ) (h : (m.lookup other).isSome) :
    ((Kanadev.setdefaultKey m key v).lookup other).isSome := by
  by_cases hk : (m.lookup key).isSome
  · simpa [Kanadev.setdefaultKey, hk] using h
  · obtain ⟨x, hx⟩ := Option.isSome_iff_exists.mp h
    have hnone : m.lookup key = none := Option.not_isSome_iff_eq_none.mp hk
    have heq : Kanadev.setdefaultKey m key v = m ++ [(key, v)] := by
      simp [Kanadev.setdefaultKey, hnone]
    have : (Kanadev.setdefaultKey m key v).lookup other = some x := by
      rw [heq]
      exact lookup_append_left m _ other x hx
    simp [this]

theorem map_normalize_jint (l : List (String × ℤ))
    (h : ∀ kv ∈ l, 1 ≤ kv.2 ∧ kv.2 ≤ 10) :
    (l.map (fun kv => (kv.1, Kanadev.JNum.jint kv.2))).map
      (fun kv => (kv.1, Kanadev.normalizeMastery kv.2)) = l := by
  induction l with
  | nil => rfl
  | cons a t ih =>
      obtain ⟨k, v⟩ := a
      have hv : 1 ≤ v ∧ v ≤ 10 := h (k, v) (List.mem_cons_self _ _)
      have ht := ih (fun kv hm => h kv (List.mem_cons_of_mem _ hm))
      simp only [List.map_cons, ht]
      have hval : Kanadev.normalizeMastery (Kanadev.JNum.jint v) = v := by
        simp only [Kanadev.normalizeMastery]
        omega
      rw [hval]

/-- C6: saving any progress state the program can hold (mastery values are
integers in [1, 10], best scores are non-negative integers with both script
entries present) and reloading it yields the identical mastery maps and
best-score map. -/
theorem save_load_roundtrip (p : Kanadev.Progress)
    (hh : ∀ kv ∈ p.hiragana, 1 ≤ kv.2 ∧ kv.2 ≤ 10)
    (hk : ∀ kv ∈ p.katakana, 1 ≤ kv.2 ∧ kv.2 ≤ 10)
    (hb : ∀ kv ∈ p.best_score, 0 ≤ kv.2)
    (hbh : (p.best_score.lookup "hiragana").isSome)
    (hbk : (p.best_score.lookup "katakana").isSome) :
    Kanadev.load_progress (some (Kanadev.save_progress p)) = p := by
  obtain ⟨h, k, b⟩ := p
  simp only [Kanadev.save_progress, Kanadev.load_progress, Option.getD_some]
  simp only at hh hk hbh hbk
  rw [map_normalize_jint h hh, map_normalize_jint k hk,
    setdefaultKey_of_isSome b "hiragana" 0 hbh,
    setdefaultKey_of_isSome b "katakana" 0 hbk]

/-- C6 witness: round-trip on a concrete progress state with one hiragana
mastery entry and both best-score entries. -/
theorem save_load_roundtrip_witness :
    Kanadev.load_progress (some (Kanadev.save_progress
      ⟨[("あ", 3)], [], [("hiragana", 2), ("katakana", 0)]⟩)) =
      (⟨[("あ", 3)], [], [("hiragana", 2), ("katakana", 0)]⟩ : Kanadev.Progress) :=
  save_load_roundtrip ⟨[("あ", 3)], [], [("hiragana", 2), ("katakana", 0)]⟩
    (by decide) (by decide) (by decide) (by decide) (by decide)

/-- C8: when the progress file is absent, unreadable or unparseable (any
exception in the read path, modelled as the `none` input), `load_progress`
returns the default empty state rather than raising. -/
theorem load_progress_failure_default :
    Kanadev.load_progress none =
      { hiragana := [], katakana := []
      , best_score := [("hiragana", 0), ("katakana", 0)] } := rfl

theorem normalizeMastery_range (v : Kanadev.JNum) :
    1 ≤ Kanadev.normalizeMastery v ∧ Kanadev.normalizeMastery v ≤ 10 := by
  cases v with
  | jint n =>
      simp only [Kanadev.normalizeMastery]
      omega
  | jfloat q =>
      simp only [Kanadev.normalizeMastery]
      omega

theorem pyRound_seven : Kanadev.pyRound (7 : ℚ) = 7 := by
  norm_num [Kanadev.pyRound]

theorem pyRound_seven_halves : Kanadev.pyRound ((7 : ℚ) / 2) = 4 := by
  have hf : ⌊(7 : ℚ) / 2⌋ = 3 := by norm_num [Int.floor_eq_iff]
  norm_num [Kanadev.pyRound, hf]

/-- C9: every mastery value `load_progress` produces from a parsed file lies
in [1, 10]; a legacy fractional value is rescaled into the integer range
(0.7 loads as 7, and 0.35 as round(3.5) = 4 under banker's rounding); and
missing writing-system or best_score keys are filled with defaults (both
best-score keys are present after any load, and a file without any of the
three keys loads as the default empty state). -/
theorem load_progress_normalizes (d : Kanadev.SavedFile) (kv : String × ℤ)
    (hmem : kv ∈ (Kanadev.load_progress (some d)).hiragana ∨
      kv ∈ (Kanadev.load_progress (some d)).katakana) :
    (1 ≤ kv.2 ∧ kv.2 ≤ 10) ∧
    ((Kanadev.load_progress (some d)).best_score.lookup "hiragana").isSome ∧
    ((Kanadev.load_progress (some d)).best_score.lookup "katakana").isSome ∧
    Kanadev.normalizeMastery (Kanadev.JNum.jfloat (7 / 10)) = 7 ∧
    Kanadev.normalizeMastery (Kanadev.JNum.jfloat (35 / 100)) = 4 ∧
    Kanadev.load_progress (some ⟨none, none, none⟩) =
      { hiragana := [], katakana := []
      , best_score := [("hiragana", 0), ("katakana", 0)] } := by
  refine ⟨?_, ?_, ?_, ?_, ?_, rfl⟩
  · simp only [Kanadev.load_progress] at hmem
    rcases hmem with hm | hm
    · obtain ⟨kv₀, _, rfl⟩ := List.mem_map.mp hm
      exact normalizeMastery_range kv₀.2
    · obtain ⟨kv₀, _, rfl⟩ := List.mem_map.mp hm
      exact normalizeMastery_range kv₀.2
  · simp only [Kanadev.load_progress]
    exact lookup_setdefaultKey_preserve _ "katakana" "hiragana" 0
      (lookup_setdefaultKey_self _ "hiragana" 0)
  · simp only [Kanadev.load_progress]
    exact lookup_setdefaultKey_self _ "katakana" 0
  · have hle : ((7 : ℚ) / 10) ≤ 1 := by norm_num
    have hmul : ((7 : ℚ) / 10) * 10 = 7 := by norm_num
    simp only [Kanadev.normalizeMastery, if_pos hle, hmul, pyRound_seven]
    norm_num
  · have hle : ((35 : ℚ) / 100) ≤ 1 := by norm_num
    have hmul : ((35 : ℚ) / 100) * 10 = 7 / 2 := by norm_num
    simp only [Kanadev.normalizeMastery, if_pos hle, hmul, pyRound_seven_halves]
    norm_num

/-- C9 witness: the load-normalisation theorem instantiated on a file whose
hiragana dict holds the out-of-range integer 12, which loads clamped to 10. -/
theorem load_progress_normalizes_witness :
    (("き", (10 : ℤ)) ∈ (Kanadev.load_progress
        (some ⟨some [("き", Kanadev.JNum.jint 12)], none, some []⟩)).hiragana ∨
      ("き", (10 : ℤ)) ∈ (Kanadev.load_progress
        (some ⟨some [("き", Kanadev.JNum.jint 12)], none, some []⟩)).katakana) ∧
    ((1 ≤ (("き", (10 : ℤ)) : String × ℤ).2 ∧ (("き", (10 : ℤ)) : String × ℤ).2 ≤ 10) ∧
     ((Kanadev.load_progress
        (some ⟨some [("き", Kanadev.JNum.jint 12)], none, some []⟩)).best_score.lookup
          "hiragana").isSome ∧
     ((Kanadev.load_progress
        (some ⟨some [("き", Kanadev.JNum.jint 12)], none, some []⟩)).best_score.lookup
          "katakana").isSome ∧
     Kanadev.normalizeMastery (Kanadev.JNum.jfloat (7 / 10)) = 7 ∧
     Kanadev.normalizeMastery (Kanadev.JNum.jfloat (35 / 100)) = 4 ∧
     Kanadev.load_progress (some ⟨none, none, none⟩) =
       { hiragana := [], katakana := []
       , best_score := [("hiragana", 0), ("katakana", 0)] }) :=
  ⟨Or.inl (by decide),
    load_progress_normalizes ⟨some [("き", Kanadev.JNum.jint 12)], none, some []⟩
      ("き", 10) (Or.inl (by decide))⟩

theorem noSpace_pyLowerN (n : ℕ) :
    (!(Kanadev.pyLowerN n == 32)) = (!(n == 32)) := by
  unfold Kanadev.pyLowerN
  split_ifs with h
  · have h1 : (n + 32 == 32) = false := by
      simp only [beq_eq_false_iff_ne, ne_eq]
      omega
    have h2 : (n == 32) = false := by
      simp only [beq_eq_false_iff_ne, ne_eq]
      omega
    rw [h1, h2]
  · rfl

theorem isWsN_pyLowerN (n : ℕ) :
    Kanadev.isWsN (Kanadev.pyLowerN n) = Kanadev.isWsN n := by
  unfold Kanadev.pyLowerN
  split_ifs with h
  · have h1 : Kanadev.isWsN (n + 32) = false := by
      simp only [Kanadev.isWsN, Bool.or_eq_false_iff, beq_eq_false_iff_ne, ne_eq]
      omega
    have h2 : Kanadev.isWsN n = false := by
      simp only [Kanadev.isWsN, Bool.or_eq_false_iff, beq_eq_false_iff_ne, ne_eq]
      omega
    rw [h1, h2]
  · rfl

theorem noSpaces_lowerL (l : List ℕ) :
    Kanadev.noSpaces (Kanadev.lowerL l) = Kanadev.lowerL (Kanadev.noSpaces l) := by
  induction l with
  | nil => rfl
  | cons c t ih =>
      simp only [Kanadev.lowerL, Kanadev.noSpaces, List.map_cons, List.filter_cons]
        at ih ⊢
      rw [noSpace_pyLowerN c]
      by_cases h : (!(c == 32)) = true
      · simp [h, ih]
      · simp [h, ih]

theorem noSpaces_dropWhile (l : List ℕ) :
    Kanadev.noSpaces (l.dropWhile Kanadev.isWsN) =
      (Kanadev.noSpaces l).dropWhile Kanadev.isWsN := by
  induction l with
  | nil => rfl
  | cons c t ih =>
      by_cases hws : Kanadev.isWsN c = true
      · by_cases h32 : c = 32
        · subst h32
          have hns : Kanadev.noSpaces (32 :: t) = Kanadev.noSpaces t := by
            simp [Kanadev.noSpaces, List.filter_cons]
          simp [List.dropWhile_cons, hws, hns, ih]
        · have hp : (!(c == 32)) = true := by simp [h32]
          have hns : Kanadev.noSpaces (c :: t) = c :: Kanadev.noSpaces t := by
            simp [Kanadev.noSpaces, List.filter_cons, hp]
          simp [List.dropWhile_cons, hws, hns, ih]
      · have h32 : ¬ c = 32 := by
          intro hc
          subst hc
          exact hws (by decide)
        have hp : (!(c == 32)) = true := by simp [h32]
        have hns : Kanadev.noSpaces (c :: t) = c :: Kanadev.noSpaces t := by
          simp [Kanadev.noSpaces, List.filter_cons, hp]
        simp [List.dropWhile_cons, hws, hns]

theorem noSpaces_reverse (l : List ℕ) :
    Kanadev.noSpaces l.reverse = (Kanadev.noSpaces l).reverse := by
  induction l with
  | nil => rfl
  | cons c t ih =>
      simp only [Kanadev.noSpaces, List.reverse_cons, List.filter_append,
        List.filter_cons] at ih ⊢
      by_cases h : (!(c == 32)) = true
      · simp [h, ih]
      · simp [h, ih]

theorem lowerL_dropWhile (l : List ℕ) :
    Kanadev.lowerL (l.dropWhile Kanadev.isWsN) =
      (Kanadev.lowerL l).dropWhile Kanadev.isWsN := by
  induction l with
  | nil => rfl
  | cons c t ih =>
      simp only [Kanadev.lowerL, List.map_cons] at ih ⊢
      by_cases hws : Kanadev.isWsN c = true
      · have hws' : Kanadev.isWsN (Kanadev.pyLowerN c) = true := by
          rw [isWsN_pyLowerN, hws]
        simp [List.dropWhile_cons, hws, hws', ih]
      · have hws' : ¬ Kanadev.isWsN (Kanadev.pyLowerN c) = true := by
          rw [isWsN_pyLowerN]
          exact hws
        simp [List.dropWhile_cons, hws, hws']

theorem lowerL_reverse (l : List ℕ) :
    Kanadev.lowerL l.reverse = (Kanadev.lowerL l).reverse :=
  List.map_reverse _ _

theorem noSpaces_stripWs (l : List ℕ) :
    Kanadev.noSpaces (Kanadev.stripWs l) = Kanadev.stripWs (Kanadev.noSpaces l) := by
  unfold Kanadev.stripWs
  rw [noSpaces_reverse, noSpaces_dropWhile, noSpaces_reverse, noSpaces_dropWhile]

theorem lowerL_stripWs (l : List ℕ) :
    Kanadev.lowerL (Kanadev.stripWs l) = Kanadev.stripWs (Kanadev.lowerL l) := by
  unfold Kanadev.stripWs
  rw [lowerL_reverse, lowerL_dropWhile, lowerL_reverse, lowerL_dropWhile]

theorem pyNormalize_eq_stripWs_skeleton (l : List ℕ) :
    Kanadev.pyNormalize l = Kanadev.stripWs (Kanadev.skeleton l) := by
  unfold Kanadev.pyNormalize Kanadev.skeleton
  rw [noSpaces_lowerL, noSpaces_stripWs, lowerL_stripWs, ← noSpaces_lowerL]

/-- C10: the typed answer is judged only through
`strip().lower().replace(" ", "")`, so any two inputs with the same
lowercased, space-free content — that is, inputs differing only in letter
case or in spaces — normalise identically and are judged identically, both
against a kana's romaji and against a word's romaji. -/
theorem typed_judgement_case_space_insensitive (expected input input' : List ℕ)
    (h : Kanadev.skeleton input = Kanadev.skeleton input') :
    Kanadev.pyNormalize input = Kanadev.pyNormalize input' ∧
    Kanadev.type_kana_judge expected input = Kanadev.type_kana_judge expected input' ∧
    Kanadev.word_judge expected input = Kanadev.word_judge expected input' := by
  have hp : Kanadev.pyNormalize input = Kanadev.pyNormalize input' := by
    rw [pyNormalize_eq_stripWs_skeleton, pyNormalize_eq_stripWs_skeleton, h]
  refine ⟨hp, ?_, ?_⟩
  · simp [Kanadev.type_kana_judge, hp]
  · simp [Kanadev.word_judge, hp]

/-- C10 witness: "Ka " (75, 97, 32) and " kA" (32, 107, 65) differ only in
case and spaces, and both are judged correct against romaji "ka"
(107, 97). -/
theorem typed_judgement_case_space_insensitive_witness :
    Kanadev.skeleton [75, 97, 32] = Kanadev.skeleton [32, 107, 65] ∧
    (Kanadev.pyNormalize [75, 97, 32] = Kanadev.pyNormalize [32, 107, 65] ∧
     Kanadev.type_kana_judge [107, 97] [75, 97, 32] =
       Kanadev.type_kana_judge [107, 97] [32, 107, 65] ∧
     Kanadev.word_judge [107, 97] [75, 97, 32] =
       Kanadev.word_judge [107, 97] [32, 107, 65]) :=
  ⟨by decide,
    typed_judgement_case_space_insensitive [107, 97] [75, 97, 32] [32, 107, 65]
      (by decide)⟩
